import Mathlib

/-!
A shallow embedding of the production-planner engine
(`src/production_planner.py`) and proofs about it.

Modelling conventions:
* Python floats are modelled as `ℚ` (exact rationals).
* A pandas cell is a `Cell`: `blank` for NaN (where `pd.notna` is false),
  `num q` for a value on which `float(·)` succeeds with result `q`,
  `str s` for a non-numeric string on which `float(·)` raises.
* Python dicts are association lists in insertion order; assignment to an
  existing key updates it in place, a new key is appended at the end
  (matching CPython dict semantics).
* A pandas DataFrame is a list of labelled columns, all of the same
  length; `iloc` row access is modelled with `List.getD` (total, with the
  understanding that in a well-formed frame the index is in range).
-/

set_option maxRecDepth 100000

namespace Planner

/-- Strip leading and trailing whitespace from a character list. -/
def stripChars (l : List Char) : List Char :=
  ((l.dropWhile Char.isWhitespace).reverse.dropWhile Char.isWhitespace).reverse

/-- Python `str.strip()` with no arguments: remove leading and trailing
whitespace. -/
def pyStrip (s : String) : String := String.mk (stripChars s.data)

/-- Helper for `pySplit`: cut a character list at whitespace characters.
The resulting fragment list is always non-empty. -/
def splitWSAux : List Char → List (List Char)
  | [] => [[]]
  | c :: cs =>
    match splitWSAux cs with
    | [] => []
    | g :: gs => if c.isWhitespace then [] :: g :: gs else (c :: g) :: gs

/-- Python `str.split()` with no arguments: split on runs of whitespace,
dropping empty fragments. -/
def pySplit (s : String) : List String :=
  ((splitWSAux s.data).map String.mk).filter (fun t => t ≠ "")

/-- `d.get(k, 0)` on a Python dict (also `defaultdict(float)` access). -/
def dictGet (d : List (String × ℚ)) (k : String) : ℚ :=
  ((d.find? (fun p => p.1 == k)).map (fun p => p.2)).getD 0

/-- `d.get(k)` / `d[k]` lookup returning an optional value. -/
def dictFind {α : Type} (d : List (String × α)) (k : String) : Option α :=
  (d.find? (fun p => p.1 == k)).map (fun p => p.2)

/-- Python dict assignment `d[k] = v`: update in place if the key exists,
append otherwise. -/
def dictSet {α : Type} (d : List (String × α)) (k : String) (v : α) :
    List (String × α) :=
  if d.any (fun p => p.1 == k) then
    d.map (fun p => if p.1 == k then (k, v) else p)
  else d ++ [(k, v)]

/-- `d[k] += v` on a `defaultdict(float)`: add onto the existing entry,
append `(k, v)` if the key is absent. -/
def dictAdd (d : List (String × ℚ)) (k : String) (v : ℚ) :
    List (String × ℚ) :=
  if d.any (fun p => p.1 == k) then
    d.map (fun p => if p.1 == k then (p.1, p.2 + v) else p)
  else d ++ [(k, v)]

/-- The total quantity carried by the entries of an association list
whose key is `m` (used to state accumulation lemmas). -/
def sumKey (l : List (String × ℚ)) (m : String) : ℚ :=
  (l.map (fun q => if q.1 = m then q.2 else 0)).sum

/-- A spreadsheet cell. -/
inductive Cell where
  | blank : Cell
  | num (q : ℚ) : Cell
  | str (s : String) : Cell
deriving Repr, DecidableEq

/-- Python `str(cell)` for a cell value. -/
def Cell.pyStr : Cell → String
  | Cell.blank => "nan"
  | Cell.num q => toString q
  | Cell.str s => s

/-- Whether a cell holds a non-numeric string (the only cell on which
`float` raises). -/
def Cell.isStr : Cell → Bool
  | Cell.str _ => true
  | _ => false

/-- The contribution of one cell to a requirement total
(lines 104-109 of the source): NaN and zero are skipped, a numeric value
is added, and a `float(·)` failure on a non-numeric value is swallowed
(`except: pass`), contributing nothing. -/
def cellContrib : Cell → ℚ
  | Cell.num q => q
  | _ => 0

/-- The materials sheet: labelled columns of equal length. -/
abbrev MaterialsTable : Type := List (String × List Cell)

/-- `df[label]` if `label in df.columns` (first column with that label). -/
def colCells (t : MaterialsTable) (label : String) : Option (List Cell) :=
  (List.find? (fun c => c.1 == label) t).map (fun c => c.2)

/-- Source lines 82-84: the ordered list of material names — `str(x).strip()`
for every non-NaN cell of the `Материал` column (empty if the column is
missing). Note that this list is *filtered*: blank rows are dropped. -/
def allMaterials (t : MaterialsTable) : List String :=
  match colCells t "Материал" with
  | none => []
  | some cells =>
      cells.filterMap (fun c => match c with
        | Cell.blank => none
        | c => some (pyStrip c.pyStr))

/-- Source lines 93-95: a column label matches an order number when the
trimmed label equals it or contains it as a whitespace-separated token. -/
def columnMatches (orderNumClean : String) (label : String) : Bool :=
  let colStr := pyStrip label
  orderNumClean == colStr || (pySplit colStr).contains orderNumClean

/-- Source lines 91-96: the columns of the materials sheet matching an
order number. -/
def orderColumns (t : MaterialsTable) (orderNumClean : String) :
    List (String × List Cell) :=
  List.filter (fun c => columnMatches orderNumClean c.1) t

/-- Source lines 100-109: the total requirement contributed at row index
`idx` by the matched columns. -/
def orderRowTotal (cols : List (String × List Cell)) (idx : ℕ) : ℚ :=
  (cols.map (fun c => cellContrib (c.2.getD idx Cell.blank))).sum

/-- `order_materials[order][material] = total` with the
`if order not in order_materials: order_materials[order] = {}` preamble
(source lines 113-115). -/
def omSet (om : List (String × List (String × ℚ))) (o m : String) (v : ℚ) :
    List (String × List (String × ℚ)) :=
  match List.find? (fun p => p.1 == o) om with
  | some _ => om.map (fun p => if p.1 == o then (p.1, dictSet p.2 m v) else p)
  | none => om ++ [(o, [(m, v)])]

/-- Source lines 87-115, the body of the `for order_num in
self.selected_orders.keys()` loop: if the order matches at least one
column, enumerate the *filtered* material-name list, using the position
in that filtered list as the `iloc` row index into the quantity columns,
and accumulate every strictly positive total into `required_materials`
and `order_materials`. -/
def calcOrderStep (t : MaterialsTable)
    (acc : List (String × ℚ) × List (String × List (String × ℚ)))
    (orderNum : String) :
    List (String × ℚ) × List (String × List (String × ℚ)) :=
  let cols := orderColumns t (pyStrip orderNum)
  if cols.isEmpty then acc
  else
    (allMaterials t).enum.foldl
      (fun acc2 p =>
        let total := orderRowTotal cols p.1
        if 0 < total then
          (dictAdd acc2.1 p.2 total, omSet acc2.2 orderNum p.2 total)
        else acc2)
      acc

/-- Source lines 78-115: accumulate `required_materials` and
`order_materials` over the selected order numbers. -/
def calcRequired (t : MaterialsTable) (selectedKeys : List String) :
    List (String × ℚ) × List (String × List (String × ℚ)) :=
  selectedKeys.foldl (calcOrderStep t) ([], [])

/-- One row of the `material_balance` report (source lines 127-133). -/
structure BalanceEntry where
  currentStock : ℚ
  alreadyReserved : ℚ
  availableNow : ℚ
  required : ℚ
  balanceAfter : ℚ
deriving Repr, DecidableEq

/-- Source lines 121-126: the balance computation for one material. -/
def mkBalance (stock reserved : List (String × ℚ)) (material : String)
    (required : ℚ) : BalanceEntry :=
  let currentStock := dictGet stock material
  let res := dictGet reserved material
  let availableStock := max 0 (currentStock - res)
  { currentStock := currentStock
    alreadyReserved := res
    availableNow := availableStock
    required := required
    balanceAfter := availableStock - required }

/-- The dictionary returned by `calculate_material_requirements`
(source lines 139-144). -/
structure Report where
  material_requirements : List (String × ℚ)
  material_balance : List (String × BalanceEntry)
  purchase_requirements : List (String × ℚ)
  order_materials : List (String × List (String × ℚ))
deriving Repr, DecidableEq

/-- An order snapshot's shipment-date field.  Python is dynamically
typed: the field holds `None`, a `datetime`, or (after restoring a file
with a falsy stored string) a raw string. -/
inductive ShipDate where
  | none : ShipDate
  | date (d : ℕ) : ShipDate
  | raw (s : String) : ShipDate
deriving Repr, DecidableEq

/-- An order snapshot: the row fields (represented by the client name)
plus the attached shipment date (source lines 66-67). -/
structure OrderInfo where
  client : String
  shipDate : ShipDate
deriving Repr, DecidableEq

/-- Source lines 117-144: assemble the report from the resolved
requirements: the balance rows and, for the deficits, the purchase
requirements valued at `abs(balance_after)` (line 137). -/
def mkReport (t : MaterialsTable) (stock reserved : List (String × ℚ))
    (selectedKeys : List String) : Report :=
  let required := (calcRequired t selectedKeys).1
  { material_requirements := required
    material_balance := required.map
      (fun p => (p.1, mkBalance stock reserved p.1 p.2))
    purchase_requirements := required.filterMap
      (fun p =>
        let e := mkBalance stock reserved p.1 p.2
        if e.balanceAfter < 0 then some (p.1, |e.balanceAfter|) else none)
    order_materials := (calcRequired t selectedKeys).2 }

/-- Source lines 73-144, `calculate_material_requirements`: fails when no
orders are selected, otherwise returns the requirement report. -/
def calculate (selected : List (String × OrderInfo)) (t : MaterialsTable)
    (stock reserved : List (String × ℚ)) : Except String Report :=
  if selected.isEmpty then Except.error "Не выбраны заказы"
  else Except.ok (mkReport t stock reserved (selected.map (fun p => p.1)))

instance {e a : Type} [DecidableEq e] [DecidableEq a] :
    DecidableEq (Except e a) := fun x y =>
  match x, y with
  | Except.ok u, Except.ok v =>
      if h : u = v then isTrue (by rw [h])
      else isFalse (by intro hc; cases hc; exact h rfl)
  | Except.error u, Except.error v =>
      if h : u = v then isTrue (by rw [h])
      else isFalse (by intro hc; cases hc; exact h rfl)
  | Except.ok _, Except.error _ => isFalse (by intro hc; cases hc)
  | Except.error _, Except.ok _ => isFalse (by intro hc; cases hc)

/-!
Modelled from the spec and the Python standard library: `datetime` and its
`isoformat`/`fromisoformat` are external to the repository.  They are
modelled as an abstract time value (a natural number) together with an
injective, never-empty string encoding `isoString` and a parser
`parseIso` that inverts the encoding and fails on every string that is
not an encoding.
-/

/-- One decimal digit rendered as a character. -/
def digitChar (d : ℕ) : Char :=
  if d = 0 then '0' else if d = 1 then '1' else if d = 2 then '2'
  else if d = 3 then '3' else if d = 4 then '4' else if d = 5 then '5'
  else if d = 6 then '6' else if d = 7 then '7' else if d = 8 then '8'
  else '9'

/-- The inverse of `digitChar` on decimal digit characters. -/
def charDigit (c : Char) : Option ℕ :=
  if c = '0' then some 0 else if c = '1' then some 1
  else if c = '2' then some 2 else if c = '3' then some 3
  else if c = '4' then some 4 else if c = '5' then some 5
  else if c = '6' then some 6 else if c = '7' then some 7
  else if c = '8' then some 8 else if c = '9' then some 9 else none

/-- Read a list of digit characters; fail on any non-digit. -/
def readDigits : List Char → Option (List ℕ)
  | [] => some []
  | c :: cs =>
    match charDigit c, readDigits cs with
    | some d, some ds => some (d :: ds)
    | _, _ => none

/-- Little-endian base-10 digits, by structural recursion on a fuel
argument (so that it evaluates inside the kernel). -/
def natDigitsAux : ℕ → ℕ → List ℕ
  | 0, _ => []
  | _ + 1, 0 => []
  | fuel + 1, n + 1 => ((n + 1) % 10) :: natDigitsAux fuel ((n + 1) / 10)

/-- Little-endian base-10 digits of a natural number. -/
def natDigits (n : ℕ) : List ℕ := natDigitsAux n n

/-- `datetime.isoformat()` (modelled): a `'T'` followed by the decimal
digits of the time value, most significant first. -/
def isoString (d : ℕ) : String :=
  String.mk ('T' :: ((natDigits d).reverse.map digitChar))

/-- `datetime.fromisoformat` (modelled): accepts exactly the strings
produced by `isoString` (modulo leading zeros) and fails on everything
else. -/
def parseIso (s : String) : Option ℕ :=
  match s.data with
  | 'T' :: rest => (readDigits rest).map (fun ds => Nat.ofDigits 10 ds.reverse)
  | _ => none

/-- Python truthiness of a shipment-date value: `None` and the empty
string are falsy, a datetime and a non-empty string are truthy. -/
def ShipDate.truthy : ShipDate → Bool
  | ShipDate.none => false
  | ShipDate.date _ => true
  | ShipDate.raw s => s ≠ ""

/-- Whether a shipment-date value is a raw string (the only shape that a
`datetime`-or-`None` snapshot never takes). -/
def ShipDate.isRaw : ShipDate → Bool
  | ShipDate.raw _ => true
  | _ => false

/-- A row of the orders sheet: the `Номер заказа` cell (as a string) and
the row's passthrough fields, represented by the client name. -/
structure OrderRow where
  num : String
  client : String
deriving Repr, DecidableEq

/-- Source lines 56-71, `select_orders`: replace the selected-orders
mapping with snapshots of the first matching row per requested number,
attaching the supplied shipment date (`shipment_dates.get`, default
`None`); numbers with no matching row are silently skipped. -/
def selectOrders (ordersTable : List OrderRow) (orderNumbers : List String)
    (shipmentDates : List (String × ShipDate)) :
    List (String × OrderInfo) :=
  orderNumbers.foldl
    (fun sel n =>
      let ns := pyStrip n
      match List.find? (fun r => pyStrip r.num == ns) ordersTable with
      | some row =>
          dictSet sel ns
            { client := row.client
              shipDate := ((shipmentDates.find? (fun p => p.1 == ns)).map
                (fun p => p.2)).getD ShipDate.none }
      | none => sel)
    []

/-- A persisted order snapshot: the passthrough fields plus the stored
shipment date (`null` or a string). -/
structure SavedOrder where
  client : String
  shipDate : Option String
deriving Repr, DecidableEq

/-- The persisted ledger document `reservations.json` (the `timestamp`
field is written but never read back, and is omitted here). -/
structure SavedData where
  reserved : List (String × ℚ)
  selected : List (String × SavedOrder)
deriving Repr, DecidableEq

/-- Source lines 174-180: serialise one snapshot's shipment date.  A
falsy value (`None` or `""`) is kept as it is; a datetime becomes its
ISO string; any other string is kept as it is. -/
def serializeShip : ShipDate → Option String
  | ShipDate.none => Option.none
  | ShipDate.date d => some (isoString d)
  | ShipDate.raw s => some s

/-- Source lines 203-210: restore one stored shipment date.  A falsy
stored value (`null` or `""`) is left as it is; otherwise the string is
parsed, and a parse failure stores `None` instead of raising. -/
def loadShip : Option String → ShipDate
  | Option.none => ShipDate.none
  | some s =>
      if s = "" then ShipDate.raw ""
      else
        match parseIso s with
        | some d => ShipDate.date d
        | Option.none => ShipDate.none

/-- The in-memory planner state (the fields of `ProductionPlanner`), plus
`file`, the parsed content of `reservations.json` (`none` when the file
does not exist). -/
structure ProductionPlanner where
  stock_data : List (String × ℚ)
  reserved_materials : List (String × ℚ)
  selected_orders : List (String × OrderInfo)
  materials : MaterialsTable
  orders : List OrderRow
  file : Option SavedData
deriving Repr, DecidableEq

/-- Source lines 171-187: the document written by
`save_reservation_data`. -/
def serialize (p : ProductionPlanner) : SavedData :=
  { reserved := p.reserved_materials
    selected := p.selected_orders.map
      (fun q => (q.1, { client := q.2.client
                        shipDate := serializeShip q.2.shipDate })) }

/-- Source lines 171-193, `save_reservation_data`: write the serialised
ledger.  `writeOk` models whether the durable write succeeds; on failure
the exception is caught and only a warning is printed (lines 192-193),
so the in-memory state is returned unchanged either way. -/
def saveReservationData (writeOk : Bool) (p : ProductionPlanner) : ProductionPlanner :=
  if writeOk then { p with file := some (serialize p) } else p

/-- Source lines 205-211: one restored order snapshot — the passthrough
fields with the shipment date put through `loadShip`. -/
def loadOrderInfo (q : String × SavedOrder) : OrderInfo :=
  { client := q.2.client, shipDate := loadShip q.2.shipDate }

/-- Source lines 195-217, `load_reservation_data`: if the file exists,
replace `reserved_materials` wholesale with the stored mapping and merge
each stored order into `selected_orders` key by key (the in-memory
mapping is never cleared first).  Returns whether a file was loaded. -/
def loadReservationData (p : ProductionPlanner) : ProductionPlanner × Bool :=
  match p.file with
  | Option.none => (p, false)
  | some data =>
      ({ p with
          reserved_materials := data.reserved
          selected_orders := data.selected.foldl
            (fun sel q => dictSet sel q.1 (loadOrderInfo q))
            p.selected_orders },
        true)

/-- The success dictionary returned by `reserve_materials`
(source lines 164-169). -/
structure ReserveResult where
  reserved_orders : List String
  reserved_materials : List (String × ℚ)
  requirements : Report
deriving Repr, DecidableEq

/-- Source lines 146-169, `reserve_materials`: select the orders,
compute the requirement report, and on success add every required
quantity onto `reserved_materials` and save.  The error dictionary of
`calculate_material_requirements` is passed through unchanged. -/
def reserveMaterials (writeOk : Bool) (orderNumbers : List String)
    (shipmentDates : List (String × ShipDate)) (p : ProductionPlanner) :
    Except String ReserveResult × ProductionPlanner :=
  let p1 := { p with
    selected_orders := selectOrders p.orders orderNumbers shipmentDates }
  match calculate p1.selected_orders p1.materials p1.stock_data
      p1.reserved_materials with
  | Except.error e => (Except.error e, p1)
  | Except.ok reqs =>
      let newReserved := reqs.material_requirements.foldl
        (fun d q => dictAdd d q.1 q.2) p1.reserved_materials
      let p2 := saveReservationData writeOk
        { p1 with reserved_materials := newReserved }
      (Except.ok
        { reserved_orders := p2.selected_orders.map (fun q => q.1)
          reserved_materials := newReserved
          requirements := reqs },
        p2)

/-- Source lines 33-38 inside `load_data`: build the stock index.  For
each row whose material cell is not NaN, `float(stock)` is applied to
the on-hand cell (or to `0` when that cell is NaN); a non-numeric
on-hand cell makes `float` raise, which line 44 re-raises. -/
def buildStockIndex (t : MaterialsTable) : Except String (List (String × ℚ)) :=
  match colCells t "На складе" with
  | Option.none => Except.ok []
  | some onHand =>
      match colCells t "Материал" with
      | Option.none => Except.error "KeyError: Материал"
      | some mats =>
          (mats.zip onHand).foldlM
            (fun acc p =>
              match p.1 with
              | Cell.blank => Except.ok acc
              | m =>
                  match p.2 with
                  | Cell.blank => Except.ok (dictSet acc (pyStrip m.pyStr) 0)
                  | Cell.num q => Except.ok (dictSet acc (pyStrip m.pyStr) q)
                  | Cell.str s =>
                      Except.error
                        ("could not convert string to float: " ++ s))
            []

/-- The value of `reserve_materials` on the success path, written out:
used to state what `reserveMaterials` returns when the selection is
non-empty. -/
def reserveOutcome (writeOk : Bool) (orderNumbers : List String)
    (shipmentDates : List (String × ShipDate)) (p : ProductionPlanner) :
    Except String ReserveResult × ProductionPlanner :=
  let sel := selectOrders p.orders orderNumbers shipmentDates
  let rep := mkReport p.materials p.stock_data p.reserved_materials
    (sel.map (fun q => q.1))
  let newReserved := rep.material_requirements.foldl
    (fun d q => dictAdd d q.1 q.2) p.reserved_materials
  (Except.ok
    { reserved_orders := sel.map (fun q => q.1)
      reserved_materials := newReserved
      requirements := rep },
    saveReservationData writeOk
      { p with selected_orders := sel, reserved_materials := newReserved })

/-- The persist-then-restore experiment of the round-trip contract: a
fresh instance (empty ledger and selection) pointed at the file that a
successful `persist()` on `p` wrote. -/
def freshLoad (p : ProductionPlanner) : ProductionPlanner :=
  { stock_data := p.stock_data
    reserved_materials := []
    selected_orders := []
    materials := p.materials
    orders := p.orders
    file := (saveReservationData true p).file }

/-- The numeric reading of an on-hand cell when `float` does not raise
(blank coerced to `0`); used to state what the stock index stores. -/
def stockOf : Cell → ℚ
  | Cell.blank => 0
  | Cell.num q => q
  | Cell.str _ => 0

/-! ### Concrete fixtures used by witnesses and counterexamples -/

/-- An order snapshot with no shipment date. -/
def exInfo : OrderInfo := { client := "ACME", shipDate := ShipDate.none }

/-- A materials sheet whose first row has a blank material cell: the
quantity `5` sits in the blank row, the quantity `7` in material `A`'s
row. -/
def exTableC2 : MaterialsTable :=
  [("Материал", [Cell.blank, Cell.str "A"]),
   ("101", [Cell.num 5, Cell.num 7])]

/-- A materials sheet with a composite column label `"101 102"`. -/
def exTableC3 : MaterialsTable :=
  [("Материал", [Cell.str "стекло"]), ("101 102", [Cell.num 4])]

/-- A one-material sheet for the balance-arithmetic witness. -/
def exTable1 : MaterialsTable :=
  [("Материал", [Cell.str "glass"]), ("101", [Cell.num 5])]

/-- Stock `glass = 10`. -/
def exStock1 : List (String × ℚ) := [("glass", 10)]

/-- Prior reservation `glass = 8`. -/
def exReserved1 : List (String × ℚ) := [("glass", 8)]

/-- One selected order. -/
def exSel1 : List (String × OrderInfo) := [("101", exInfo)]

/-- The report for the balance-arithmetic witness. -/
def exRep1 : Report := mkReport exTable1 exStock1 exReserved1 ["101"]

/-- A two-material, two-order sheet. -/
def exTableC4 : MaterialsTable :=
  [("Материал", [Cell.str "glass", Cell.str "argon"]),
   ("101", [Cell.num 4, Cell.blank]),
   ("102", [Cell.num 2, Cell.num 1])]

/-- Two orders (the first with padding around its number). -/
def exOrders : List OrderRow :=
  [{ num := " 101 ", client := "ACME" }, { num := "102", client := "Bolt" }]

/-- A freshly initialised planner over the two-order fixture. -/
def exPlanner : ProductionPlanner :=
  { stock_data := [("glass", 10)]
    reserved_materials := []
    selected_orders := []
    materials := exTableC4
    orders := exOrders
    file := Option.none }

/-- The individual report for order `101` on a fresh ledger. -/
def exRepA : Report := mkReport exTableC4 [("glass", 10)] [] ["101"]

/-- The individual report for order `102` on a fresh ledger. -/
def exRepB : Report := mkReport exTableC4 [("glass", 10)] [] ["102"]

/-- A planner with one reservation and one selected (dated) order, for
the round-trip witness. -/
def exPlannerC6 : ProductionPlanner :=
  { stock_data := [("glass", 10)]
    reserved_materials := [("glass", 4)]
    selected_orders := [("101", { client := "ACME", shipDate := ShipDate.date 7 })]
    materials := exTableC4
    orders := exOrders
    file := Option.none }

/-- A persisted ledger holding only order `202`. -/
def exDataC10 : SavedData :=
  { reserved := [("steel", 2)]
    selected := [("202", { client := "Bolt", shipDate := Option.none })] }

/-- A planner whose in-memory selection holds order `101` while its
persisted file holds only order `202`. -/
def exPlannerC10 : ProductionPlanner :=
  { stock_data := [("glass", 10)]
    reserved_materials := [("glass", 4)]
    selected_orders := [("101", exInfo)]
    materials := exTableC4
    orders := exOrders
    file := some exDataC10 }

/-- The reservation result of `reserve(["101"])` on the fresh fixture. -/
def exResC9 : ReserveResult :=
  { reserved_orders := ["101"]
    reserved_materials := [("glass", 4)]
    requirements := mkReport exTableC4 [("glass", 10)] [] ["101"] }

/-- The planner state after `reserve(["101"])` on the fresh fixture. -/
def exP2C9 : ProductionPlanner :=
  { exPlanner with
      reserved_materials := [("glass", 4)]
      selected_orders := [("101", exInfo)]
      file := some { reserved := [("glass", 4)]
                     selected := [("101", { client := "ACME", shipDate := Option.none })] } }

/-! ### Association-list lemmas -/

theorem foldlPreserve {α β : Type} (P : β → Prop) (f : β → α → β) :
    ∀ (l : List α) (b : β), P b → (∀ x a, P x → P (f x a)) → P (l.foldl f b)
  | [], _, hb, _ => hb
  | a :: l, b, hb, hf => foldlPreserve P f l (f b a) (hf b a hb) hf

theorem dictGet_nil (m : String) : dictGet [] m = 0 := rfl

theorem dictGet_cons (a : String × ℚ) (d : List (String × ℚ)) (m : String) :
    dictGet (a :: d) m = if a.1 = m then a.2 else dictGet d m := by
  by_cases h : a.1 = m
  · have hb : (a.1 == m) = true := by simp [h]
    simp only [dictGet, List.find?_cons, hb, if_pos h]
    rfl
  · have hb : (a.1 == m) = false := by simp [h]
    simp only [dictGet, List.find?_cons, hb, if_neg h]

theorem dictGet_eq_zero (d : List (String × ℚ)) (k : String)
    (h : ∀ p ∈ d, p.1 ≠ k) : dictGet d k = 0 := by
  induction d with
  | nil => rfl
  | cons a d ih =>
    rw [dictGet_cons, if_neg (h a (by simp))]
    exact ih (fun p hp => h p (by simp [hp]))

theorem hasKey_false_not_mem {d : List (String × ℚ)} {k : String}
    (h : d.any (fun p => p.1 == k) = false) : ∀ p ∈ d, p.1 ≠ k := by
  intro p hp
  simp only [List.any_eq_false] at h
  simpa using h p hp

theorem mapUpd_get (d : List (String × ℚ)) (k : String) (v : ℚ) (m : String) :
    dictGet (d.map (fun p => if p.1 == k then (p.1, p.2 + v) else p)) m
      = dictGet d m
        + if m = k ∧ d.any (fun p => p.1 == k) = true then v else 0 := by
  induction d with
  | nil => simp [dictGet]
  | cons a d ih =>
    have hfst : (if a.1 == k then (a.1, a.2 + v) else a).1 = a.1 := by
      split <;> rfl
    rw [List.map_cons, dictGet_cons, dictGet_cons, hfst]
    by_cases ham : a.1 = m
    · rw [if_pos ham, if_pos ham]
      by_cases hmk : m = k
      · have hb : (a.1 == k) = true := by simp [ham, hmk]
        rw [List.any_cons]
        simp [hb, hmk]
      · have hb : (a.1 == k) = false := by simp [ham, hmk]
        simp [hb, hmk]
    · rw [if_neg ham, if_neg ham, ih, List.any_cons]
      by_cases hmk : m = k
      · have ham' : a.1 ≠ k := by rw [← hmk]; exact ham
        have hb : (a.1 == k) = false := by simp [ham']
        rw [hb, Bool.false_or]
      · simp [hmk]

theorem append_get (d : List (String × ℚ)) (k : String) (v : ℚ) (m : String)
    (h : ∀ p ∈ d, p.1 ≠ k) :
    dictGet (d ++ [(k, v)]) m = dictGet d m + if m = k then v else 0 := by
  induction d with
  | nil =>
    rw [List.nil_append, dictGet_cons, dictGet_nil, zero_add]
    by_cases hmk : m = k
    · simp [hmk]
    · have : k ≠ m := fun hc => hmk hc.symm
      simp [this, hmk]
  | cons a d ih =>
    rw [List.cons_append, dictGet_cons, dictGet_cons]
    by_cases ham : a.1 = m
    · have : m ≠ k := fun hc => h a (by simp) (by rw [ham, hc])
      simp [ham, this]
    · rw [if_neg ham, if_neg ham]
      exact ih (fun p hp => h p (by simp [hp]))

theorem dictAdd_get (d : List (String × ℚ)) (k : String) (v : ℚ) (m : String) :
    dictGet (dictAdd d k v) m = dictGet d m + if m = k then v else 0 := by
  unfold dictAdd
  by_cases hAny : d.any (fun p => p.1 == k) = true
  · rw [if_pos hAny, mapUpd_get]
    congr 1
    simp [hAny]
  · rw [if_neg hAny]
    rw [Bool.not_eq_true] at hAny
    exact append_get d k v m (hasKey_false_not_mem hAny)

theorem foldl_dictAdd_get (l : List (String × ℚ)) (d : List (String × ℚ))
    (m : String) :
    dictGet (l.foldl (fun d q => dictAdd d q.1 q.2) d) m
      = dictGet d m + sumKey l m := by
  induction l generalizing d with
  | nil => simp [sumKey]
  | cons q l ih =>
    rw [List.foldl_cons, ih, dictAdd_get]
    simp only [sumKey, List.map_cons, List.sum_cons]
    by_cases h : q.1 = m
    · simp [h, add_assoc]
    · have : m ≠ q.1 := fun hc => h hc.symm
      simp [h, this, add_assoc]

theorem sumKey_eq_zero (l : List (String × ℚ)) (m : String)
    (h : ∀ p ∈ l, p.1 ≠ m) : sumKey l m = 0 := by
  induction l with
  | nil => rfl
  | cons a l ih =>
    simp only [sumKey, List.map_cons, List.sum_cons, if_neg (h a (by simp))]
    rw [zero_add]
    exact ih (fun p hp => h p (by simp [hp]))

theorem sumKey_eq_of_nodup (l : List (String × ℚ)) :
    ∀ (m : String) (q : ℚ), (l.map Prod.fst).Nodup → (m, q) ∈ l →
      sumKey l m = q := by
  induction l with
  | nil => intro m q _ hm; cases hm
  | cons a l ih =>
    intro m q hnd hm
    simp only [List.map_cons, List.nodup_cons] at hnd
    rcases List.mem_cons.mp hm with h1 | h1
    · subst h1
      have hz : ∀ p ∈ l, p.1 ≠ m := by
        intro p hp hc
        have hmem : p.1 ∈ List.map Prod.fst l := List.mem_map_of_mem Prod.fst hp
        rw [hc] at hmem
        exact hnd.1 hmem
      simp only [sumKey, List.map_cons, List.sum_cons]
      rw [if_true]
      rw [show (List.map (fun q => if q.1 = m then q.2 else 0) l).sum
          = sumKey l m from rfl, sumKey_eq_zero l m hz, add_zero]
    · have hml : m ∈ l.map Prod.fst := by
        simpa using List.mem_map_of_mem Prod.fst h1
      have ham : a.1 ≠ m := fun hc => hnd.1 (hc ▸ hml)
      simp only [sumKey, List.map_cons, List.sum_cons, if_neg ham]
      rw [zero_add]
      exact ih m q hnd.2 h1

theorem mem_nodup_keys_eq {α : Type} (d : List (String × α)) :
    ∀ (m : String) (a b : α), (d.map Prod.fst).Nodup →
      (m, a) ∈ d → (m, b) ∈ d → a = b := by
  induction d with
  | nil => intro m a b _ ha; cases ha
  | cons x d ih =>
    intro m a b hnd ha hb
    simp only [List.map_cons, List.nodup_cons] at hnd
    rcases List.mem_cons.mp ha with h1 | h1 <;>
      rcases List.mem_cons.mp hb with h2 | h2
    · have h12 := h1.trans h2.symm
      exact congrArg Prod.snd h12
    · exfalso
      have hm2 : m ∈ d.map Prod.fst := by
        simpa using List.mem_map_of_mem Prod.fst h2
      have hx1 : x.1 = m := by rw [← h1]
      exact hnd.1 (hx1 ▸ hm2)
    · exfalso
      have hm1 : m ∈ d.map Prod.fst := by
        simpa using List.mem_map_of_mem Prod.fst h1
      have hx1 : x.1 = m := by rw [← h2]
      exact hnd.1 (hx1 ▸ hm1)
    · exact ih m a b hnd.2 h1 h2

theorem dictAdd_fst (d : List (String × ℚ)) (k : String) (v : ℚ) :
    (dictAdd d k v).map Prod.fst
      = if d.any (fun p => p.1 == k) = true then d.map Prod.fst
        else d.map Prod.fst ++ [k] := by
  unfold dictAdd
  by_cases h : d.any (fun p => p.1 == k) = true
  · rw [if_pos h, if_pos h, List.map_map]
    apply List.map_congr_left
    intro p _
    simp only [Function.comp_apply]
    split <;> rfl
  · rw [if_neg h, if_neg h, List.map_append]
    rfl

theorem dictAdd_nodup {d : List (String × ℚ)} {k : String} {v : ℚ}
    (hnd : (d.map Prod.fst).Nodup) : ((dictAdd d k v).map Prod.fst).Nodup := by
  rw [dictAdd_fst]
  by_cases h : d.any (fun p => p.1 == k) = true
  · rw [if_pos h]; exact hnd
  · rw [if_neg h]
    rw [Bool.not_eq_true] at h
    have hk : k ∉ d.map Prod.fst := by
      intro hc
      rcases List.mem_map.mp hc with ⟨p, hp, hpk⟩
      exact hasKey_false_not_mem h p hp hpk
    simp [List.nodup_append, hnd, hk]

theorem calcOrderStep_fst_nodup (t : MaterialsTable)
    (acc : List (String × ℚ) × List (String × List (String × ℚ)))
    (o : String) (hx : ((acc.1).map Prod.fst).Nodup) :
    (((calcOrderStep t acc o).1).map Prod.fst).Nodup := by
  simp only [calcOrderStep]
  split
  · exact hx
  · refine foldlPreserve (fun a => ((a.1).map Prod.fst).Nodup) _
      (allMaterials t).enum acc hx ?_
    intro y p hy
    dsimp only
    split
    · exact dictAdd_nodup hy
    · exact hy

theorem calcRequired_fst_nodup (t : MaterialsTable) (keys : List String) :
    (((calcRequired t keys).1).map Prod.fst).Nodup := by
  unfold calcRequired
  exact foldlPreserve (fun acc => ((acc.1).map Prod.fst).Nodup)
    (calcOrderStep t) keys ([], []) (by simp)
    (fun x o hx => calcOrderStep_fst_nodup t x o hx)

theorem calculate_ok_iff (sel : List (String × OrderInfo)) (t : MaterialsTable)
    (stock res : List (String × ℚ)) (rep : Report) :
    calculate sel t stock res = Except.ok rep
      ↔ sel ≠ [] ∧ rep = mkReport t stock res (sel.map (fun p => p.1)) := by
  unfold calculate
  by_cases h : sel.isEmpty
  · rw [if_pos h]
    simp [List.isEmpty_iff.mp h]
  · rw [if_neg h]
    have hne : sel ≠ [] := by
      intro hc; rw [hc] at h; exact h rfl
    simp [hne, eq_comm]

theorem dictFind_nil {α : Type} (k : String) :
    dictFind ([] : List (String × α)) k = none := rfl

theorem dictFind_cons {α : Type} (a : String × α) (d : List (String × α))
    (k : String) :
    dictFind (a :: d) k = if a.1 = k then some a.2 else dictFind d k := by
  by_cases h : a.1 = k
  · have hb : (a.1 == k) = true := by simp [h]
    simp only [dictFind, List.find?_cons, hb, if_pos h]
    rfl
  · have hb : (a.1 == k) = false := by simp [h]
    simp only [dictFind, List.find?_cons, hb, if_neg h]

theorem mapSet_find_ne {α : Type} (d : List (String × α)) (j k : String)
    (v : α) (h : j ≠ k) :
    dictFind (d.map (fun p => if p.1 == j then (j, v) else p)) k
      = dictFind d k := by
  induction d with
  | nil => rfl
  | cons a d ih =>
    rw [List.map_cons, dictFind_cons, dictFind_cons]
    by_cases haj : a.1 = j
    · have hb : (a.1 == j) = true := by simp [haj]
      simp only [hb, if_true]
      rw [if_neg (show ¬((j, v).1 = k) from h),
        if_neg (show ¬(a.1 = k) by rw [haj]; exact h)]
      exact ih
    · have hb : (a.1 == j) = false := by simp [haj]
      simp only [hb, Bool.false_eq_true, if_false]
      by_cases hak : a.1 = k
      · rw [if_pos hak, if_pos hak]
      · rw [if_neg hak, if_neg hak]
        exact ih

theorem append_find_ne {α : Type} (d : List (String × α)) (j k : String)
    (v : α) (h : j ≠ k) :
    dictFind (d ++ [(j, v)]) k = dictFind d k := by
  induction d with
  | nil =>
    rw [List.nil_append, dictFind_cons, if_neg (show ¬((j, v).1 = k) from h)]
  | cons a d ih =>
    rw [List.cons_append, dictFind_cons, dictFind_cons]
    by_cases hak : a.1 = k
    · rw [if_pos hak, if_pos hak]
    · rw [if_neg hak, if_neg hak]
      exact ih

theorem dictSet_find_ne {α : Type} (d : List (String × α)) (j : String)
    (v : α) (k : String) (h : j ≠ k) :
    dictFind (dictSet d j v) k = dictFind d k := by
  unfold dictSet
  by_cases hAny : d.any (fun p => p.1 == j) = true
  · rw [if_pos hAny]
    exact mapSet_find_ne d j k v h
  · rw [if_neg hAny]
    exact append_find_ne d j k v h

theorem foldl_dictSet_find_ne {α β : Type} (f : String × α → β)
    (l : List (String × α)) (k : String) (h : ∀ q ∈ l, q.1 ≠ k) :
    ∀ acc : List (String × β),
      dictFind (l.foldl (fun sel q => dictSet sel q.1 (f q)) acc) k
        = dictFind acc k := by
  induction l with
  | nil => intro acc; rfl
  | cons q l ih =>
    intro acc
    rw [List.foldl_cons, ih (fun p hp => h p (by simp [hp])),
      dictSet_find_ne acc q.1 (f q) k (h q (by simp))]

theorem dictSet_append {α : Type} (d : List (String × α)) (k : String)
    (v : α) (h : ∀ p ∈ d, p.1 ≠ k) : dictSet d k v = d ++ [(k, v)] := by
  unfold dictSet
  rw [if_neg]
  intro hc
  rcases List.any_eq_true.mp hc with ⟨p, hp, hpk⟩
  exact h p hp (by simpa using hpk)

theorem foldl_dictSet_of_disjoint {α β : Type} (f : String × α → β) :
    ∀ (l : List (String × α)) (acc : List (String × β)),
      (l.map Prod.fst).Nodup →
      (∀ q ∈ l, ∀ a ∈ acc, a.1 ≠ q.1) →
      l.foldl (fun sel q => dictSet sel q.1 (f q)) acc
        = acc ++ l.map (fun q => (q.1, f q)) := by
  intro l
  induction l with
  | nil => intro acc _ _; simp
  | cons q l ih =>
    intro acc hnd hdisj
    simp only [List.map_cons, List.nodup_cons] at hnd
    rw [List.foldl_cons,
      dictSet_append acc q.1 (f q) (fun p hp => hdisj q (by simp) p hp)]
    rw [ih (acc ++ [(q.1, f q)]) hnd.2 ?_]
    · simp
    · intro p hp a ha
      rcases List.mem_append.mp ha with h1 | h1
      · exact hdisj p (by simp [hp]) a h1
      · have : a = (q.1, f q) := by simpa using h1
        rw [this]
        intro hc
        exact hnd.1 (hc ▸ List.mem_map_of_mem Prod.fst hp)

theorem natDigitsAux_eq (fuel : ℕ) :
    ∀ n, n ≤ fuel → natDigitsAux fuel n = Nat.digits 10 n := by
  induction fuel with
  | zero => intro n hn; interval_cases n; simp [natDigitsAux]
  | succ f ih =>
    intro n hn
    cases n with
    | zero => simp [natDigitsAux]
    | succ m =>
      rw [natDigitsAux, Nat.digits_def' (by norm_num : (1:ℕ) < 10)
        (Nat.succ_pos m)]
      congr 1
      exact ih _ (Nat.le_of_lt_succ (Nat.lt_of_lt_of_le
        (Nat.div_lt_self (Nat.succ_pos m) (by norm_num)) hn))

theorem natDigits_eq (n : ℕ) : natDigits n = Nat.digits 10 n :=
  natDigitsAux_eq n n le_rfl

theorem charDigit_digitChar (d : ℕ) (h : d < 10) :
    charDigit (digitChar d) = some d := by
  interval_cases d <;> decide

theorem readDigits_map (l : List ℕ) (h : ∀ d ∈ l, d < 10) :
    readDigits (l.map digitChar) = some l := by
  induction l with
  | nil => rfl
  | cons d ds ih =>
    simp only [List.map_cons, readDigits]
    rw [charDigit_digitChar d (h d (by simp)), ih (fun x hx => h x (by simp [hx]))]

theorem parseIso_isoString (d : ℕ) : parseIso (isoString d) = some d := by
  simp only [parseIso, isoString]
  rw [readDigits_map]
  · simp [Nat.ofDigits_digits, natDigits_eq]
  · intro x hx
    rw [natDigits_eq] at hx
    exact Nat.digits_lt_base (by norm_num) (List.mem_reverse.mp hx)

theorem isoString_ne_empty (d : ℕ) : isoString d ≠ "" := by
  simp only [isoString]
  intro h
  have := congrArg String.data h
  simp at this

theorem loadShip_serializeShip (sd : ShipDate)
    (h : ∀ s, sd ≠ ShipDate.raw s) :
    loadShip (serializeShip sd) = sd := by
  cases sd with
  | none => rfl
  | date d =>
    simp only [serializeShip, loadShip]
    rw [if_neg (isoString_ne_empty d), parseIso_isoString]
  | raw s => exact absurd rfl (h s)

theorem dictGet_eq_of_mem (d : List (String × ℚ)) :
    ∀ (m : String) (q : ℚ), ((d.map Prod.fst).Nodup) → (m, q) ∈ d →
      dictGet d m = q := by
  induction d with
  | nil => intro m q _ hm; cases hm
  | cons a d ih =>
    intro m q hnd hm
    simp only [List.map_cons, List.nodup_cons] at hnd
    rw [dictGet_cons]
    rcases List.mem_cons.mp hm with h1 | h1
    · rw [← h1]
      simp
    · have hml : m ∈ d.map Prod.fst := by
        simpa using List.mem_map_of_mem Prod.fst h1
      have ham : a.1 ≠ m := fun hc => hnd.1 (hc ▸ hml)
      rw [if_neg ham]
      exact ih m q hnd.2 h1

theorem sumKey_eq_dictGet (l : List (String × ℚ)) (m : String)
    (hnd : (l.map Prod.fst).Nodup) : sumKey l m = dictGet l m := by
  by_cases h : ∃ q, (m, q) ∈ l
  · rcases h with ⟨q, hq⟩
    rw [sumKey_eq_of_nodup l m q hnd hq, dictGet_eq_of_mem l m q hnd hq]
  · have hz : ∀ p ∈ l, p.1 ≠ m := by
      intro p hp hc
      exact h ⟨p.2, by rw [← hc]; exact hp⟩
    rw [sumKey_eq_zero l m hz, dictGet_eq_zero l m hz]

theorem save_reserved (w : Bool) (p : ProductionPlanner) :
    (saveReservationData w p).reserved_materials = p.reserved_materials := by
  unfold saveReservationData; split <;> rfl

theorem save_selected (w : Bool) (p : ProductionPlanner) :
    (saveReservationData w p).selected_orders = p.selected_orders := by
  unfold saveReservationData; split <;> rfl

theorem save_orders (w : Bool) (p : ProductionPlanner) :
    (saveReservationData w p).orders = p.orders := by
  unfold saveReservationData; split <;> rfl

theorem save_materials (w : Bool) (p : ProductionPlanner) :
    (saveReservationData w p).materials = p.materials := by
  unfold saveReservationData; split <;> rfl

theorem save_stock (w : Bool) (p : ProductionPlanner) :
    (saveReservationData w p).stock_data = p.stock_data := by
  unfold saveReservationData; split <;> rfl

theorem save_file_false (p : ProductionPlanner) :
    (saveReservationData false p).file = p.file := rfl

theorem mkReport_requirements (t : MaterialsTable)
    (stock res : List (String × ℚ)) (keys : List String) :
    (mkReport t stock res keys).material_requirements
      = (calcRequired t keys).1 := rfl

theorem reserveMaterials_eq_ok (w : Bool) (nums : List String)
    (dates : List (String × ShipDate)) (p : ProductionPlanner)
    (hne : selectOrders p.orders nums dates ≠ []) :
    reserveMaterials w nums dates p = reserveOutcome w nums dates p := by
  have hcalc : calculate (selectOrders p.orders nums dates) p.materials
      p.stock_data p.reserved_materials
      = Except.ok (mkReport p.materials p.stock_data p.reserved_materials
          ((selectOrders p.orders nums dates).map (fun q => q.1))) :=
    (calculate_ok_iff _ _ _ _ _).mpr ⟨hne, rfl⟩
  simp only [reserveMaterials, reserveOutcome]
  rw [hcalc]
  dsimp only
  rw [save_selected]

theorem reserveMaterials_empty (w : Bool) (nums : List String)
    (dates : List (String × ShipDate)) (p : ProductionPlanner)
    (h : selectOrders p.orders nums dates = []) :
    reserveMaterials w nums dates p
      = (Except.error "Не выбраны заказы",
          { p with selected_orders := [] }) := by
  simp only [reserveMaterials, h, calculate, List.isEmpty_nil, if_true]

/-- C5: for every ledger state, reserving with an order list whose
selection comes up empty (for example the empty list) fails with the
no-orders-selected error, leaves the reserved mapping unchanged, and
does not write persisted state. -/
theorem reserve_empty_selection_fails (w : Bool) (nums : List String)
    (dates : List (String × ShipDate)) (p : ProductionPlanner)
    (h : selectOrders p.orders nums dates = []) :
    (reserveMaterials w nums dates p).1 = Except.error "Не выбраны заказы"
    ∧ (reserveMaterials w nums dates p).2.reserved_materials
        = p.reserved_materials
    ∧ (reserveMaterials w nums dates p).2.file = p.file := by
  rw [reserveMaterials_empty w nums dates p h]
  exact ⟨rfl, rfl, rfl⟩

/-- Witness for C5 at the empty order list on a concrete planner. -/
theorem reserve_empty_selection_fails_witness :
    selectOrders exPlanner.orders [] [] = []
    ∧ (reserveMaterials true [] [] exPlanner).1
        = Except.error "Не выбраны заказы"
    ∧ (reserveMaterials true [] [] exPlanner).2.reserved_materials
        = exPlanner.reserved_materials
    ∧ (reserveMaterials true [] [] exPlanner).2.file = exPlanner.file :=
  ⟨rfl, reserve_empty_selection_fails true [] [] exPlanner rfl⟩

/-- C10: a successful restore replaces `reserved_materials` wholesale
with the persisted mapping, but merges the persisted orders into the
in-memory selection key by key: a key absent from the file keeps its
in-memory entry. -/
theorem restore_merges_selected (p : ProductionPlanner) (data : SavedData)
    (k : String) (hfile : p.file = some data)
    (hk : ∀ q ∈ data.selected, q.1 ≠ k) :
    (loadReservationData p).2 = true
    ∧ dictFind (loadReservationData p).1.selected_orders k
        = dictFind p.selected_orders k
    ∧ (loadReservationData p).1.reserved_materials = data.reserved := by
  simp only [loadReservationData, hfile]
  exact ⟨trivial,
    foldl_dictSet_find_ne loadOrderInfo data.selected k hk p.selected_orders,
    trivial⟩

/-- Witness for C10: order `101` is in memory, absent from the file, and
survives the restore; the reserved mapping is the file's. -/
theorem restore_merges_selected_witness :
    dictFind (loadReservationData exPlannerC10).1.selected_orders "101"
      = dictFind exPlannerC10.selected_orders "101"
    ∧ (loadReservationData exPlannerC10).1.reserved_materials
        = exDataC10.reserved :=
  ⟨(restore_merges_selected exPlannerC10 exDataC10 "101" rfl
      (by with_unfolding_all decide)).2.1,
   (restore_merges_selected exPlannerC10 exDataC10 "101" rfl
      (by with_unfolding_all decide)).2.2⟩

/-- C2 (failing input): on a table whose first row has a blank material
cell, the resolver pairs material `A` (which sits in row 1, quantity 7)
with row 0's quantity 5: the filtered-list position, not the row index,
is used as the join key. -/
theorem resolver_misaligned_row_join :
    (calculate [("101", exInfo)] exTableC2 [] []).map
        (fun r => r.material_requirements) = Except.ok [("A", 5)]
    ∧ (5 : ℚ) ≠ 7 := by
  constructor
  · with_unfolding_all decide
  · norm_num

/-- C8: when the durable write fails, reserve still returns success with
the updated reserved mapping and the full report, and the persisted
state is simply left unchanged — the failure is never propagated as a
failed reservation. -/
theorem reserve_write_failure_not_propagated (nums : List String)
    (dates : List (String × ShipDate)) (p : ProductionPlanner)
    (hne : selectOrders p.orders nums dates ≠ []) :
    (reserveMaterials false nums dates p).2.file = p.file
    ∧ (reserveMaterials false nums dates p).1 = Except.ok
        { reserved_orders :=
            (selectOrders p.orders nums dates).map (fun q => q.1)
          reserved_materials :=
            (reserveMaterials false nums dates p).2.reserved_materials
          requirements := mkReport p.materials p.stock_data
            p.reserved_materials
            ((selectOrders p.orders nums dates).map (fun q => q.1)) } := by
  rw [reserveMaterials_eq_ok false nums dates p hne]
  exact ⟨rfl, rfl⟩

/-- Witness for C8 on a concrete planner and order list. -/
theorem reserve_write_failure_not_propagated_witness :
    (reserveMaterials false ["101"] [] exPlanner).2.file = exPlanner.file
    ∧ (reserveMaterials false ["101"] [] exPlanner).1 = Except.ok
        { reserved_orders :=
            (selectOrders exPlanner.orders ["101"] []).map (fun q => q.1)
          reserved_materials :=
            (reserveMaterials false ["101"] [] exPlanner).2.reserved_materials
          requirements := mkReport exPlanner.materials exPlanner.stock_data
            exPlanner.reserved_materials
            ((selectOrders exPlanner.orders ["101"] []).map (fun q => q.1)) } :=
  reserve_write_failure_not_propagated ["101"] [] exPlanner
    (by with_unfolding_all decide)

theorem buildStock_foldlM (l : List (Cell × Cell)) :
    ∀ acc : List (String × ℚ),
      (∀ p ∈ l, p.1 ≠ Cell.blank → p.2.isStr = false) →
      (List.foldlM
        (fun acc (p : Cell × Cell) =>
          match p.1 with
          | Cell.blank => Except.ok acc
          | m =>
              match p.2 with
              | Cell.blank => Except.ok (dictSet acc (pyStrip m.pyStr) 0)
              | Cell.num q => Except.ok (dictSet acc (pyStrip m.pyStr) q)
              | Cell.str s =>
                  Except.error
                    ("could not convert string to float: " ++ s))
        acc l : Except String (List (String × ℚ)))
      = Except.ok (List.foldl
          (fun acc (p : Cell × Cell) =>
            if p.1 = Cell.blank then acc
            else dictSet acc (pyStrip p.1.pyStr) (stockOf p.2)) acc l) := by
  induction l with
  | nil => intro acc _; rfl
  | cons p l ih =>
    intro acc h
    rw [List.foldlM_cons, List.foldl_cons]
    obtain ⟨c1, c2⟩ := p
    have htail : ∀ p ∈ l, p.1 ≠ Cell.blank → p.2.isStr = false :=
      fun p hp => h p (by simp [hp])
    cases c1 with
    | blank =>
      dsimp only
      rw [if_pos rfl]
      exact ih acc htail
    | num q1 =>
      cases c2 with
      | blank =>
        dsimp only
        rw [if_neg (by simp : ¬(Cell.num q1 = Cell.blank))]
        exact ih _ htail
      | num q2 =>
        dsimp only
        rw [if_neg (by simp : ¬(Cell.num q1 = Cell.blank))]
        exact ih _ htail
      | str s =>
        exact absurd (h (Cell.num q1, Cell.str s) (by simp) (by simp)) (by simp [Cell.isStr])
    | str s1 =>
      cases c2 with
      | blank =>
        dsimp only
        rw [if_neg (by simp : ¬(Cell.str s1 = Cell.blank))]
        exact ih _ htail
      | num q2 =>
        dsimp only
        rw [if_neg (by simp : ¬(Cell.str s1 = Cell.blank))]
        exact ih _ htail
      | str s =>
        exact absurd (h (Cell.str s1, Cell.str s) (by simp) (by simp)) (by simp [Cell.isStr])

/-- C7 (counterexample): a row with material `A` and the non-numeric
on-hand value `"abc"` makes the stock-index build fail instead of
coercing the cell to `0.0`. -/
theorem stock_index_raises_on_text :
    buildStockIndex
        [("Материал", [Cell.str "A"]), ("На складе", [Cell.str "abc"])]
      = Except.error "could not convert string to float: abc" := by
  with_unfolding_all decide

/-- C7 (amended): the stock-index build never fails provided no row with
a non-empty material identifier carries a non-numeric, non-blank on-hand
cell; for such tables every row with a non-empty material stores the
parsed on-hand number, with a blank cell coerced to `0.0`, keyed by the
trimmed identifier (later duplicates overwriting earlier ones). -/
theorem stock_index_coerces_blank (t : MaterialsTable)
    (mats onHand : List Cell)
    (hm : colCells t "Материал" = some mats)
    (hoh : colCells t "На складе" = some onHand)
    (hok : ∀ p ∈ mats.zip onHand, p.1 ≠ Cell.blank → p.2.isStr = false) :
    buildStockIndex t = Except.ok ((mats.zip onHand).foldl
      (fun acc p =>
        if p.1 = Cell.blank then acc
        else dictSet acc (pyStrip p.1.pyStr) (stockOf p.2)) []) := by
  unfold buildStockIndex
  rw [hoh, hm]
  exact buildStock_foldlM (mats.zip onHand) [] hok

/-- Witness for the amended C7 on a table with a blank on-hand cell in a
material row (coerced to `0`) and a junk on-hand cell in a blank row
(ignored). -/
theorem stock_index_coerces_blank_witness :
    colCells [("Материал", [Cell.str "A", Cell.blank]),
        ("На складе", [Cell.blank, Cell.str "x"])] "Материал"
      = some [Cell.str "A", Cell.blank]
    ∧ buildStockIndex [("Материал", [Cell.str "A", Cell.blank]),
        ("На складе", [Cell.blank, Cell.str "x"])]
      = Except.ok [("A", 0)] := by
  refine ⟨by with_unfolding_all decide, ?_⟩
  rw [stock_index_coerces_blank _ [Cell.str "A", Cell.blank]
    [Cell.blank, Cell.str "x"] (by with_unfolding_all decide)
    (by with_unfolding_all decide) (by with_unfolding_all decide)]
  with_unfolding_all decide

/-- C9: the report inside a successful reserve result is computed
against the reserved mapping from before the reservation, while the
result's reserved mapping reflects the state after the addition: for
every reported material, new reserved = prior reserved + required. -/
theorem reserve_report_prior_reserved (w : Bool) (nums : List String)
    (dates : List (String × ShipDate)) (p p2 : ProductionPlanner)
    (res : ReserveResult)
    (h : reserveMaterials w nums dates p = (Except.ok res, p2)) :
    calculate (selectOrders p.orders nums dates) p.materials p.stock_data
        p.reserved_materials = Except.ok res.requirements
    ∧ ∀ m q, (m, q) ∈ res.requirements.material_requirements →
        dictGet res.reserved_materials m
          = dictGet p.reserved_materials m + q := by
  have hne : selectOrders p.orders nums dates ≠ [] := by
    intro hc
    rw [reserveMaterials_empty w nums dates p hc] at h
    have := congrArg Prod.fst h
    simp at this
  rw [reserveMaterials_eq_ok w nums dates p hne] at h
  have h1 := congrArg Prod.fst h
  simp only [reserveOutcome] at h1
  have hres := Except.ok.inj h1
  rw [← hres]
  constructor
  · exact (calculate_ok_iff _ _ _ _ _).mpr ⟨hne, rfl⟩
  · intro m q hm
    dsimp only at hm ⊢
    rw [foldl_dictAdd_get]
    congr 1
    refine sumKey_eq_of_nodup _ m q ?_ hm
    rw [mkReport_requirements]
    exact calcRequired_fst_nodup _ _

/-- Witness for C9 on a concrete reservation. -/
theorem reserve_report_prior_reserved_witness :
    calculate (selectOrders exPlanner.orders ["101"] []) exPlanner.materials
        exPlanner.stock_data exPlanner.reserved_materials
      = Except.ok exResC9.requirements
    ∧ dictGet exResC9.reserved_materials "glass"
        = dictGet exPlanner.reserved_materials "glass" + 4 := by
  have h := reserve_report_prior_reserved true ["101"] [] exPlanner exP2C9
    exResC9 (by with_unfolding_all decide)
  exact ⟨h.1, h.2 "glass" 4 (by with_unfolding_all decide)⟩

/-- C3: a materials-table column feeds an order's resolution exactly
when its trimmed label equals the order id or contains it as a
whitespace-separated token; in particular order `"101"` picks up the
composite column `"101 102"` and its quantities. -/
theorem column_matching_rule :
    (∀ (t : MaterialsTable) (oid : String) (c : String × List Cell),
        c ∈ orderColumns t oid
          ↔ c ∈ t ∧ (pyStrip c.1 = oid ∨ oid ∈ pySplit (pyStrip c.1)))
    ∧ (calculate [("101", exInfo)] exTableC3 [] []).map
        (fun r => r.material_requirements) = Except.ok [("стекло", 4)] := by
  constructor
  · intro t oid c
    rw [orderColumns, List.mem_filter]
    simp only [columnMatches, Bool.or_eq_true, beq_iff_eq, List.elem_iff]
    constructor
    · rintro ⟨hmem, hmatch⟩
      rcases hmatch with h1 | h1
      · exact ⟨hmem, Or.inl h1.symm⟩
      · exact ⟨hmem, Or.inr h1⟩
    · rintro ⟨hmem, hmatch⟩
      rcases hmatch with h1 | h1
      · exact ⟨hmem, Or.inl h1.symm⟩
      · exact ⟨hmem, Or.inr h1⟩
  · with_unfolding_all decide

theorem loadShip_serializeShip_isRaw (sd : ShipDate)
    (h : sd.isRaw = false) : loadShip (serializeShip sd) = sd := by
  apply loadShip_serializeShip
  intro s hc
  rw [hc] at h
  simp [ShipDate.isRaw] at h

/-- C6: persist then restore on a fresh instance reproduces the reserved
mapping exactly and the selected orders with their shipment dates
restored to structured values; restoring an unparseable (truthy) stored
date yields `None` instead of raising. -/
theorem persist_restore_roundtrip (p : ProductionPlanner)
    (hnd : (p.selected_orders.map Prod.fst).Nodup)
    (hser : ∀ q ∈ p.selected_orders, (q.2.shipDate).isRaw = false) :
    ((loadReservationData (freshLoad p)).2 = true
     ∧ (loadReservationData (freshLoad p)).1.reserved_materials
         = p.reserved_materials
     ∧ (loadReservationData (freshLoad p)).1.selected_orders
         = p.selected_orders)
    ∧ (∀ s, s ≠ "" → parseIso s = Option.none →
        loadShip (some s) = ShipDate.none) := by
  constructor
  · have hfile : (freshLoad p).file = some (serialize p) := rfl
    simp only [loadReservationData, hfile]
    refine ⟨trivial, rfl, ?_⟩
    rw [show (freshLoad p).selected_orders = [] from rfl]
    have hkeys : ((serialize p).selected.map Prod.fst).Nodup := by
      simp only [serialize, List.map_map]
      exact hnd
    refine Eq.trans (foldl_dictSet_of_disjoint loadOrderInfo
      (serialize p).selected [] hkeys
      (fun q _ a ha => absurd ha (List.not_mem_nil a))) ?_
    rw [List.nil_append]
    simp only [serialize, List.map_map]
    refine Eq.trans (List.map_congr_left ?_) (List.map_id _)
    intro q hq
    dsimp only [Function.comp_apply, loadOrderInfo, id]
    rw [loadShip_serializeShip_isRaw q.2.shipDate (hser q hq)]
  · intro s hs hparse
    simp only [loadShip, if_neg hs, hparse]

/-- Witness for C6 on a planner with one dated order, plus the
unparseable stored date `"abc"`. -/
theorem persist_restore_roundtrip_witness :
    (loadReservationData (freshLoad exPlannerC6)).1.reserved_materials
      = exPlannerC6.reserved_materials
    ∧ (loadReservationData (freshLoad exPlannerC6)).1.selected_orders
        = exPlannerC6.selected_orders
    ∧ loadShip (some "abc") = ShipDate.none :=
  ⟨(persist_restore_roundtrip exPlannerC6 (by with_unfolding_all decide)
      (by with_unfolding_all decide)).1.2.1,
   (persist_restore_roundtrip exPlannerC6 (by with_unfolding_all decide)
      (by with_unfolding_all decide)).1.2.2,
   (persist_restore_roundtrip exPlannerC6 (by with_unfolding_all decide)
      (by with_unfolding_all decide)).2 "abc" (by decide)
      (by with_unfolding_all decide)⟩

/-- C4: starting from an empty reservation ledger, reserving two
disjoint order sets one after the other leaves `reserved_materials`
equal to the material-wise sum of the required quantities of the two
individual requirement reports — reservation adds, it never replaces. -/
theorem reserve_accumulates (p : ProductionPlanner) (A B : List String)
    (dA dB : List (String × ShipDate)) (w1 w2 : Bool) (rA rB : Report)
    (hres : p.reserved_materials = [])
    (_hdisj : ∀ a ∈ A, ∀ b ∈ B, a ≠ b)
    (hA : calculate (selectOrders p.orders A dA) p.materials p.stock_data []
        = Except.ok rA)
    (hB : calculate (selectOrders p.orders B dB) p.materials p.stock_data []
        = Except.ok rB) :
    ∀ m, dictGet ((reserveMaterials w2 B dB
          (reserveMaterials w1 A dA p).2).2.reserved_materials) m
      = dictGet rA.material_requirements m
        + dictGet rB.material_requirements m := by
  intro m
  obtain ⟨hneA, hrA⟩ := (calculate_ok_iff _ _ _ _ _).mp hA
  obtain ⟨hneB, hrB⟩ := (calculate_ok_iff _ _ _ _ _).mp hB
  rw [reserveMaterials_eq_ok w1 A dA p hneA]
  have h1r : ((reserveOutcome w1 A dA p).2).reserved_materials
      = List.foldl (fun d q => dictAdd d q.1 q.2) p.reserved_materials
          ((mkReport p.materials p.stock_data p.reserved_materials
            ((selectOrders p.orders A dA).map
              (fun q => q.1))).material_requirements) := by
    simp only [reserveOutcome]
    rw [save_reserved]
  have h1o : ((reserveOutcome w1 A dA p).2).orders = p.orders := by
    simp only [reserveOutcome]
    rw [save_orders]
  have h1m : ((reserveOutcome w1 A dA p).2).materials = p.materials := by
    simp only [reserveOutcome]
    rw [save_materials]
  have h1s : ((reserveOutcome w1 A dA p).2).stock_data = p.stock_data := by
    simp only [reserveOutcome]
    rw [save_stock]
  have hneB' : selectOrders ((reserveOutcome w1 A dA p).2).orders B dB ≠ [] := by
    rw [h1o]; exact hneB
  rw [reserveMaterials_eq_ok w2 B dB _ hneB']
  have h2r : (reserveOutcome w2 B dB
        ((reserveOutcome w1 A dA p).2)).2.reserved_materials
      = List.foldl (fun d q => dictAdd d q.1 q.2)
          ((reserveOutcome w1 A dA p).2).reserved_materials
          ((mkReport ((reserveOutcome w1 A dA p).2).materials
            ((reserveOutcome w1 A dA p).2).stock_data
            ((reserveOutcome w1 A dA p).2).reserved_materials
            ((selectOrders ((reserveOutcome w1 A dA p).2).orders B dB).map
              (fun q => q.1))).material_requirements) := by
    simp only [reserveOutcome]
    rw [save_reserved]
  rw [h2r, foldl_dictAdd_get, h1r, hres, foldl_dictAdd_get, dictGet_nil,
    zero_add]
  congr 1
  · rw [hrA]
    rw [sumKey_eq_dictGet]
    rw [mkReport_requirements]
    exact calcRequired_fst_nodup _ _
  · rw [h1o, hrB]
    simp only [mkReport_requirements]
    rw [h1m]
    rw [sumKey_eq_dictGet _ _ (calcRequired_fst_nodup _ _)]

/-- Witness for C4: two disjoint single-order reservations on a fresh
ledger; `glass` ends up at the sum of the two reports' requirements. -/
theorem reserve_accumulates_witness :
    dictGet ((reserveMaterials true ["102"] []
          (reserveMaterials true ["101"] [] exPlanner).2).2.reserved_materials)
        "glass"
      = dictGet exRepA.material_requirements "glass"
        + dictGet exRepB.material_requirements "glass" :=
  reserve_accumulates exPlanner ["101"] ["102"] [] [] true true exRepA exRepB
    rfl (by with_unfolding_all decide) (by with_unfolding_all decide)
    (by with_unfolding_all decide) "glass"


/-- C1: every material in the report satisfies
`available_now = max 0 (stock - reserved)` and
`balance_after = available_now - required` with `required` drawn from the
resolved requirement mapping; and a material carries a purchase
requirement exactly when `balance_after < 0`, valued at
`-balance_after`. -/
theorem requirement_report_balance (sel : List (String × OrderInfo))
    (t : MaterialsTable) (stock reserved : List (String × ℚ)) (r : Report)
    (h : calculate sel t stock reserved = Except.ok r) :
    (∀ m b, (m, b) ∈ r.material_balance →
      (m, b.required) ∈ r.material_requirements
      ∧ b.availableNow = max 0 (dictGet stock m - dictGet reserved m)
      ∧ b.balanceAfter = b.availableNow - b.required
      ∧ ((m, -b.balanceAfter) ∈ r.purchase_requirements ↔ b.balanceAfter < 0)
      ∧ (∀ v, (m, v) ∈ r.purchase_requirements → v = -b.balanceAfter))
    ∧ (∀ m v, (m, v) ∈ r.purchase_requirements →
        ∃ b, (m, b) ∈ r.material_balance) := by
  obtain ⟨hne, hrep⟩ := (calculate_ok_iff _ _ _ _ _).mp h
  subst hrep
  have hnd := calcRequired_fst_nodup t (sel.map (fun p => p.1))
  constructor
  · intro m b hmb
    simp only [mkReport] at hmb
    rcases List.mem_map.mp hmb with ⟨p, hp, hpe⟩
    have hm : p.1 = m := congrArg Prod.fst hpe
    have hb : mkBalance stock reserved p.1 p.2 = b := congrArg Prod.snd hpe
    subst hm
    subst hb
    refine ⟨?_, rfl, rfl, ?_, ?_⟩
    · exact hp
    · constructor
      · intro hmem
        simp only [mkReport, List.mem_filterMap] at hmem
        rcases hmem with ⟨p2, hp2, hg⟩
        by_cases hlt : (mkBalance stock reserved p2.1 p2.2).balanceAfter < 0
        · rw [if_pos hlt] at hg
          have hpair := Option.some.inj hg
          have hfst := congrArg Prod.fst hpair
          dsimp only at hfst
          have h22 : p2.2 = p.2 := by
            refine mem_nodup_keys_eq _ p.1 p2.2 p.2 hnd ?_ hp
            rw [← hfst]
            exact hp2
          rw [hfst, h22] at hlt
          exact hlt
        · rw [if_neg hlt] at hg
          cases hg
      · intro hlt
        simp only [mkReport, List.mem_filterMap]
        refine ⟨p, hp, ?_⟩
        rw [if_pos hlt, abs_of_neg hlt]
    · intro v hv
      simp only [mkReport, List.mem_filterMap] at hv
      rcases hv with ⟨p2, hp2, hg⟩
      by_cases hlt : (mkBalance stock reserved p2.1 p2.2).balanceAfter < 0
      · rw [if_pos hlt] at hg
        have hpair := Option.some.inj hg
        have hfst := congrArg Prod.fst hpair
        have hsnd := congrArg Prod.snd hpair
        dsimp only at hfst hsnd
        have h22 : p2.2 = p.2 := by
          refine mem_nodup_keys_eq _ p.1 p2.2 p.2 hnd ?_ hp
          rw [← hfst]
          exact hp2
        rw [hfst, h22] at hlt hsnd
        rw [← hsnd, abs_of_neg hlt]
      · rw [if_neg hlt] at hg
        cases hg
  · intro m v hv
    simp only [mkReport, List.mem_filterMap] at hv
    rcases hv with ⟨p2, hp2, hg⟩
    by_cases hlt : (mkBalance stock reserved p2.1 p2.2).balanceAfter < 0
    · rw [if_pos hlt] at hg
      have hpair := Option.some.inj hg
      have hfst := congrArg Prod.fst hpair
      dsimp only at hfst
      refine ⟨mkBalance stock reserved p2.1 p2.2, ?_⟩
      simp only [mkReport]
      rw [← hfst]
      exact List.mem_map_of_mem _ hp2
    · rw [if_neg hlt] at hg
      cases hg

/-- Witness for C1 in the shortfall scenario: stock 10, reserved 8,
required 5 gives available 2, balance −3, purchase requirement 3. -/
theorem requirement_report_balance_witness :
    (("glass", mkBalance exStock1 exReserved1 "glass" 5)
        ∈ exRep1.material_balance)
    ∧ (mkBalance exStock1 exReserved1 "glass" 5).availableNow
        = max 0 (dictGet exStock1 "glass" - dictGet exReserved1 "glass")
    ∧ (("glass",
          -(mkBalance exStock1 exReserved1 "glass" 5).balanceAfter)
          ∈ exRep1.purchase_requirements
        ↔ (mkBalance exStock1 exReserved1 "glass" 5).balanceAfter < 0) := by
  have h := requirement_report_balance exSel1 exTable1 exStock1 exReserved1
    exRep1 (by with_unfolding_all decide)
  have hmem : ("glass", mkBalance exStock1 exReserved1 "glass" 5)
      ∈ exRep1.material_balance := by with_unfolding_all decide
  have h2 := h.1 "glass" (mkBalance exStock1 exReserved1 "glass" 5) hmem
  exact ⟨hmem, h2.2.1, h2.2.2.2.1⟩

end Planner
